import Mathlib

/-!
Verification of the Pynguin evolutionary core.

A shallow embedding of the genetic-operator core of the Pynguin test
generator: `TestCaseChromosome` with its `cross_over` and `mutate`
operators (`pynguin/ga/testcasechromosome.py`), the `FitnessValues`
validation (`pynguin/ga/fitnessfunction.py`) and the abstract
`SelectionFunction.select` (`pynguin/ga/operators/selection/selection.py`).

Collaborators that the core merely consumes (Test-Factory, TestCase
statement storage, ExecutionResult, configuration knobs, randomness
source) are modelled as explicit parameters following the external
interface contracts of the specification.  Python floats drawn from the
randomness source are modelled as rationals; a Python `assert` failure is
modelled by an `Option`-valued operation returning `none`.
-/

/-- A statement of a test case.  The core treats statements as opaque
values that carry a result-variable `distance` metadatum
(`statement.return_value.distance`); the remaining content is an opaque
payload. -/
structure Stmt where
  payload : Nat
  distance : Int
  deriving DecidableEq, Repr

/-- Modelled from the spec: statements "can report their own position and
support self-mutation" and are "cloned with their own copy semantics".
`Statement.clone` produces a fresh, value-equal copy. -/
def Stmt.clone (s : Stmt) : Stmt :=
  { payload := s.payload, distance := s.distance }

/-- Modelled from the spec: the randomness source is "a single
process-wide uniform generator supplying `next_float() in [0,1)`",
modelled as a finite stream of rationals consumed from the front.  An
exhausted stream yields `1`, a value `next_float` can never actually
return, so that no probability gate of the form `q < p` with `p ≤ 1`
fires on it. -/
abbrev RandQ := List ℚ

/-- Pop the next float from the randomness stream. -/
def nextFloat : RandQ → ℚ × RandQ
  | [] => (1, [])
  | q :: r => (q, r)

/-- Modelled from the spec: `ExecutionResult` "reports whether/where an
exception occurred (`has_test_exceptions()`,
`get_first_position_of_thrown_exception()`)". -/
structure ExecutionResult where
  thrownExceptionPosition : Option Nat
  deriving DecidableEq, Repr

/-- Embeds `ExecutionResult.has_test_exceptions()`. -/
def ExecutionResult.has_test_exceptions (r : ExecutionResult) : Bool :=
  r.thrownExceptionPosition.isSome

/-- Embeds `ExecutionResult.get_first_position_of_thrown_exception()`. -/
def ExecutionResult.get_first_position_of_thrown_exception
    (r : ExecutionResult) : Option Nat :=
  r.thrownExceptionPosition

/-- Modelled from the spec: the configuration is "external, read-only to
core: numeric knobs consumed verbatim — maximum chromosome length,
per-operator trigger probabilities (delete/change/insert), insertion
decay factor, chop-on-overflow toggle". -/
structure Config where
  chromosome_length : Nat
  chop_max_length : Bool
  test_delete_probability : ℚ
  test_change_probability : ℚ
  test_insert_probability : ℚ
  statement_insertion_probability : ℚ

/-- Modelled from the spec: the Test-Factory collaborator offers
"structural-edit operations consumed by mutation/crossover —
`append_statement`, `insert_random_statement(test_case, max_position) ->
position`, `delete_statement_gracefully(test_case, index) -> bool`,
`change_random_call(test_case, statement) -> bool`".  Each operation may
consume randomness, so it threads the stream.  `changeRandomCall`
additionally reports the edited statement's current position (the
substituted call adopts the original statement's return value, so
`statement.get_position()` resolves to the replacement's position). -/
structure TestFactory where
  appendStatement : List Stmt → Stmt → List Stmt
  insertRandomStatement : List Stmt → Nat → RandQ → List Stmt × Int × RandQ
  deleteStatementGracefully : List Stmt → Nat → RandQ → List Stmt × Bool × RandQ
  changeRandomCall : List Stmt → Nat → RandQ → List Stmt × Bool × Nat × RandQ

/-- The self-mutation capability of statements (`statement.mutate()`):
returns whether the statement mutated itself, the statement's new
in-place value, and the rest of the randomness stream. -/
abbrev StmtMutate := Stmt → RandQ → Bool × Stmt × RandQ

/-- The state of a `TestCaseChromosome`: the owned statement sequence,
the non-owning optional Test-Factory reference, and the base `Chromosome`
state (`changed` flag, cached fitness marker, last execution result).
The cached fitness is kept abstract as an optional tag. -/
structure TestCaseChromosome where
  test_case : List Stmt
  test_factory : Option TestFactory
  changed : Bool
  fitness : Option ℚ
  last_execution_result : Option ExecutionResult

/-- Embeds `TestCaseChromosome.size()`. -/
def TestCaseChromosome.size (c : TestCaseChromosome) : Nat :=
  c.test_case.length

/-- The `orig is None` branch of `TestCaseChromosome.__init__`: a fresh
chromosome starts with `changed = True`, no cached fitness and no
execution result. -/
def TestCaseChromosome.mkNew (tc : List Stmt) (tf : Option TestFactory) :
    TestCaseChromosome :=
  { test_case := tc
    test_factory := tf
    changed := true
    fitness := none
    last_execution_result := none }

/-- Modelled from the spec: `TestCase.clone()` deep-copies the statement
sequence, "each statement is cloned with its own copy semantics". -/
def testCaseClone (tc : List Stmt) : List Stmt :=
  tc.map Stmt.clone

/-- Embeds `TestCaseChromosome.clone()`, i.e. `TestCaseChromosome(orig=self)`:
the statement sequence is deep-copied via `orig._test_case.clone()`, the
factory reference, changed flag and last execution result are taken from
`orig`, and the base-class state (cached fitness) is copied as well. -/
def TestCaseChromosome.clone (c : TestCaseChromosome) : TestCaseChromosome :=
  { test_case := testCaseClone c.test_case
    test_factory := c.test_factory
    changed := c.changed
    fitness := c.fitness
    last_execution_result := c.last_execution_result }

/-- Embeds `TestCaseChromosome.__eq__`: structural equality on the encoded test
case only; cached fitness and flags do not bear identity. -/
def chromosome_eq (a b : TestCaseChromosome) : Prop :=
  a.test_case = b.test_case

/-- Embeds `TestCaseChromosome._get_last_mutatable_statement`. -/
def get_last_mutatable_statement (ler : Option ExecutionResult)
    (tc : List Stmt) : Option Nat :=
  if tc.length = 0 then
    none
  else
    match ler with
    | some r =>
      match r.thrownExceptionPosition with
      | some pos => if pos < tc.length then some pos else some (tc.length - 1)
      | none => some (tc.length - 1)
    | none => some (tc.length - 1)

/-- Embeds the offspring synthesis of `TestCaseChromosome.cross_over`: the offspring's statement sequence,
built from a clone of `self`'s prefix `[0, position1)` followed by
`other`'s statements from `position2` on, appended through the factory's
dependency-repairing `append_statement`. -/
def crossOverOffspring (F : TestFactory) (selfTc otherTc : List Stmt)
    (position1 position2 : Nat) : List Stmt :=
  (otherTc.drop position2).foldl F.appendStatement
    ((selfTc.take position1).map Stmt.clone)

/-- Embeds `TestCaseChromosome.cross_over(other, position1, position2)`.  A
missing test factory is an assertion failure, modelled as `none`.  The
offspring replaces `self`'s test case (setting the changed flag) only if
its size is strictly below the configured maximum chromosome length. -/
def TestCaseChromosome.cross_over (cfg : Config) (c other : TestCaseChromosome)
    (position1 position2 : Nat) : Option TestCaseChromosome :=
  match c.test_factory with
  | none => none
  | some F =>
    let off := crossOverOffspring F c.test_case other.test_case position1 position2
    if off.length < cfg.chromosome_length then
      some { c with test_case := off, changed := true }
    else
      some c

/-- Modelled from the spec: `TestCase.chop(pos)` truncates "the sequence
at the last mutatable position, discarding everything after it" — the
statements up to and including `pos` are kept. -/
def testCaseChop (tc : List Stmt) (pos : Nat) : List Stmt :=
  tc.take (pos + 1)

/-- Write `d` into the `distance` field of the statement at index `i`
(`statement.return_value.distance = d` resolved at the statement's
current position). -/
def setDistance (tc : List Stmt) (i : Nat) (d : Int) : List Stmt :=
  match tc[i]? with
  | some s => tc.set i { s with distance := d }
  | none => tc

/-- The loop body of `TestCaseChromosome._mutation_delete`: indices from
`last_mutatable_statement` down to `0`; an index at or beyond the current
size is skipped, otherwise the statement is deleted gracefully with
probability `p`.  The argument `n` counts the indices still to process,
so the current index is `n - 1`.  A missing factory at a firing gate is
an assertion failure. -/
def mutationDeleteLoop (tf : Option TestFactory) (p : ℚ) :
    Nat → List Stmt → RandQ → Bool → Option (Bool × List Stmt × RandQ)
  | 0, tc, rand, changed => some (changed, tc, rand)
  | n + 1, tc, rand, changed =>
    if n ≥ tc.length then
      mutationDeleteLoop tf p n tc rand changed
    else
      let (q, rand1) := nextFloat rand
      if q ≤ p then
        match tf with
        | none => none
        | some F =>
          let res := F.deleteStatementGracefully tc n rand1
          mutationDeleteLoop tf p n res.1 res.2.2 (changed || res.2.1)
      else
        mutationDeleteLoop tf p n tc rand1 changed

/-- Embeds `TestCaseChromosome._mutation_delete`. -/
def mutation_delete (tf : Option TestFactory) (ler : Option ExecutionResult)
    (tc : List Stmt) (rand : RandQ) : Option (Bool × List Stmt × RandQ) :=
  match get_last_mutatable_statement ler tc with
  | none => some (false, tc, rand)
  | some last =>
    mutationDeleteLoop tf (1 / ((last : ℚ) + 1)) (last + 1) tc rand false

/-- One gated step of `TestCaseChromosome._mutation_change` at
`position`: read the statement, remember its distance, let it
self-mutate; if it declines, substitute a call through the factory
(assertion failure when the factory is missing); finally restore the
remembered distance at the statement's current position.  Returns the
step's changed contribution, the new test case, the statement's current
position, and the remaining stream. -/
def mutationChangeStep (tf : Option TestFactory) (sm : StmtMutate)
    (tc : List Stmt) (position : Nat) (rand : RandQ) :
    Option (Bool × List Stmt × Nat × RandQ) :=
  match tc[position]? with
  | none => none
  | some statement =>
    let old_distance := statement.distance
    let smr := sm statement rand
    let tc1 := tc.set position smr.2.1
    if smr.1 then
      some (true, setDistance tc1 position old_distance, position, smr.2.2)
    else
      match tf with
      | none => none
      | some F =>
        let res := F.changeRandomCall tc1 position smr.2.2
        some (res.2.1, setDistance res.1 res.2.2.1 old_distance,
          res.2.2.1, res.2.2.2)

/-- The while-loop of `TestCaseChromosome._mutation_change`: positions
from `0` to `last`; each visited position mutates with probability `p`;
after a mutation the loop resumes from the statement's current reported
position plus one.  `fuel` bounds the number of iterations; exhausted
fuel exits the loop with the state reached so far. -/
def mutationChangeLoop (tf : Option TestFactory) (sm : StmtMutate)
    (last : Nat) (p : ℚ) :
    Nat → Nat → List Stmt → RandQ → Bool → Option (Bool × List Stmt × RandQ)
  | 0, _, tc, rand, changed => some (changed, tc, rand)
  | fuel + 1, position, tc, rand, changed =>
    if position > last then
      some (changed, tc, rand)
    else
      let (q, rand1) := nextFloat rand
      if q < p then
        match mutationChangeStep tf sm tc position rand1 with
        | none => none
        | some (cb, tc1, newPos, rand2) =>
          mutationChangeLoop tf sm last p fuel (newPos + 1) tc1 rand2 (changed || cb)
      else
        mutationChangeLoop tf sm last p fuel (position + 1) tc rand1 changed

/-- Embeds `TestCaseChromosome._mutation_change`. -/
def mutation_change (tf : Option TestFactory) (sm : StmtMutate) (fuel : Nat)
    (ler : Option ExecutionResult) (tc : List Stmt) (rand : RandQ) :
    Option (Bool × List Stmt × RandQ) :=
  match get_last_mutatable_statement ler tc with
  | none => some (false, tc, rand)
  | some last =>
    mutationChangeLoop tf sm last (1 / ((last : ℚ) + 1)) fuel 0 tc rand false

/-- The while-loop of `TestCaseChromosome._mutation_insert`: at the
`exponent`-th attempt, draw a float and continue while it is at most
`alpha ^ exponent` and the current size is below the configured maximum;
then insert one random statement at a position up to one past the last
mutatable statement (assertion failure when the factory is missing), and
mark the chromosome changed when the returned position is within the new
size.  `fuel` bounds the number of iterations. -/
def mutationInsertLoop (tf : Option TestFactory) (cfg : Config)
    (ler : Option ExecutionResult) (alpha : ℚ) :
    Nat → Nat → List Stmt → RandQ → Bool → Option (Bool × List Stmt × RandQ)
  | 0, _, tc, rand, changed => some (changed, tc, rand)
  | fuel + 1, exponent, tc, rand, changed =>
    let (q, rand1) := nextFloat rand
    if q ≤ alpha ^ exponent ∧ tc.length < cfg.chromosome_length then
      match tf with
      | none => none
      | some F =>
        let max_position :=
          match get_last_mutatable_statement ler tc with
          | none => 0
          | some m => m + 1
        let res := F.insertRandomStatement tc max_position rand1
        let changed1 :=
          changed || (0 ≤ res.2.1 ∧ res.2.1 < (res.1.length : Int) : Bool)
        mutationInsertLoop tf cfg ler alpha fuel (exponent + 1) res.1 res.2.2 changed1
    else
      some (changed, tc, rand1)

/-- Embeds `TestCaseChromosome._mutation_insert`. -/
def mutation_insert (tf : Option TestFactory) (cfg : Config)
    (ler : Option ExecutionResult) (fuel : Nat) (tc : List Stmt)
    (rand : RandQ) : Option (Bool × List Stmt × RandQ) :=
  mutationInsertLoop tf cfg ler cfg.statement_insertion_probability fuel 1 tc rand false

/-- The chop step of `TestCaseChromosome.mutate()`: when configured and
the size is at least the maximum chromosome length, truncate at the last
mutatable position. -/
def mutation_chop (cfg : Config) (ler : Option ExecutionResult)
    (tc : List Stmt) : List Stmt × Bool :=
  if cfg.chop_max_length ∧ cfg.chromosome_length ≤ tc.length then
    match get_last_mutatable_statement ler tc with
    | some p => (testCaseChop tc p, true)
    | none => (tc, false)
  else
    (tc, false)

/-- The delete gate of `mutate()`: draw a float and run
`_mutation_delete` when it is at most the configured delete
probability. -/
def gatedDelete (tf : Option TestFactory) (ler : Option ExecutionResult)
    (prob : ℚ) (tc : List Stmt) (rand : RandQ) :
    Option (Bool × List Stmt × RandQ) :=
  let (q, rand1) := nextFloat rand
  if q ≤ prob then mutation_delete tf ler tc rand1 else some (false, tc, rand1)

/-- The change gate of `mutate()`: draw a float and run
`_mutation_change` when it is at most the configured change
probability. -/
def gatedChange (tf : Option TestFactory) (sm : StmtMutate) (fuel : Nat)
    (ler : Option ExecutionResult) (prob : ℚ) (tc : List Stmt) (rand : RandQ) :
    Option (Bool × List Stmt × RandQ) :=
  let (q, rand1) := nextFloat rand
  if q ≤ prob then mutation_change tf sm fuel ler tc rand1
  else some (false, tc, rand1)

/-- The insert gate of `mutate()`: draw a float and run
`_mutation_insert` when it is at most the configured insert
probability. -/
def gatedInsert (tf : Option TestFactory) (cfg : Config)
    (ler : Option ExecutionResult) (fuel : Nat) (tc : List Stmt)
    (rand : RandQ) : Option (Bool × List Stmt × RandQ) :=
  let (q, rand1) := nextFloat rand
  if q ≤ cfg.test_insert_probability then mutation_insert tf cfg ler fuel tc rand1
  else some (false, tc, rand1)

/-- Embeds `TestCaseChromosome.mutate()`: chop when configured and oversized,
then the delete, change and insert sub-operations, each behind its own
probability gate; the chromosome's changed flag is set only when some
sub-operation reported a change.  `none` models an assertion failure in
a sub-operation. -/
def TestCaseChromosome.mutate (cfg : Config) (sm : StmtMutate) (fuel : Nat)
    (c : TestCaseChromosome) (rand : RandQ) :
    Option (TestCaseChromosome × RandQ) :=
  let chopped := mutation_chop cfg c.last_execution_result c.test_case
  let tcA := chopped.1
  match gatedDelete c.test_factory c.last_execution_result
      cfg.test_delete_probability tcA rand with
  | none => none
  | some (d1, tcB, rand2) =>
    match gatedChange c.test_factory sm fuel c.last_execution_result
        cfg.test_change_probability tcB rand2 with
    | none => none
    | some (d2, tcC, rand4) =>
      match gatedInsert c.test_factory cfg c.last_execution_result fuel
          tcC rand4 with
      | none => none
      | some (d3, tcD, rand6) =>
        let anyChanged := chopped.2 || d1 || d2 || d3
        some ({ c with
                  test_case := tcD
                  changed := if anyChanged then true else c.changed }, rand6)

/-- A Python float as stored in `FitnessValues`: NaN, the two infinities,
or a finite value modelled as a rational. -/
inductive PFloat where
  | nan : PFloat
  | inf : PFloat
  | ninf : PFloat
  | val (q : ℚ) : PFloat
  deriving DecidableEq, Repr

/-- Embeds `math.isnan`. -/
def PFloat.isNaN : PFloat → Bool
  | .nan => true
  | _ => false

/-- Embeds `math.isinf` (true for both infinities). -/
def PFloat.isInf : PFloat → Bool
  | .inf => true
  | .ninf => true
  | _ => false

/-- The Python comparison `x < 0` on floats: false for NaN and `inf`,
true for `-inf`. -/
def PFloat.ltZero : PFloat → Bool
  | .nan => false
  | .inf => false
  | .ninf => true
  | .val q => q < 0

/-- The Python chained comparison `0 <= x <= 1` on floats: false for NaN
and both infinities. -/
def PFloat.in01 : PFloat → Bool
  | .nan => false
  | .inf => false
  | .ninf => false
  | .val q => 0 ≤ q ∧ q ≤ 1

/-- The textual rendering of a float in an f-string. -/
def floatRepr : PFloat → String
  | .nan => "nan"
  | .inf => "inf"
  | .ninf => "-inf"
  | .val q => toString q

/-- Embeds `FitnessValues`: a fitness scalar and a coverage fraction. -/
structure FitnessValues where
  fitness : PFloat
  coverage : PFloat
  deriving DecidableEq, Repr

/-- Embeds `FitnessValues.validate()`: collect violation strings for an
invalid fitness (NaN, infinite, or negative) and an invalid coverage
(NaN, infinite, or outside `[0, 1]`).  The coverage message interpolates
`self.fitness`, exactly as the source does. -/
def FitnessValues.validate (fv : FitnessValues) : List String :=
  let violations : List String := []
  let violations :=
    if fv.fitness.isNaN || fv.fitness.isInf || fv.fitness.ltZero then
      violations ++ ["Invalid value of fitness: " ++ floatRepr fv.fitness]
    else violations
  let violations :=
    if fv.coverage.isNaN || fv.coverage.isInf || !fv.coverage.in01 then
      violations ++ ["Invalid value for coverage: " ++ floatRepr fv.fitness]
    else violations
  violations

/-- The successive indices produced by `number` calls of
`get_index(population)`, each call receiving the full population and
threading the strategy's internal state (which includes its randomness).
Returns the index trace in call order together with the final state. -/
def getIndexTrace {T σ : Type} (gi : List T → σ → Nat × σ) (population : List T) :
    Nat → σ → List Nat × σ
  | 0, s => ([], s)
  | n + 1, s =>
    let (i, s1) := gi population s
    let (rest, s2) := getIndexTrace gi population n s1
    (i :: rest, s2)

/-- Embeds `SelectionFunction.select(population, number)`: `number` times, call
`get_index` on the full population and append the chromosome at the
returned index.  Out-of-range indices (which raise in Python and are
excluded by `get_index`'s contract) read a default element. -/
def SelectionFunction.select {T σ : Type} [Inhabited T]
    (gi : List T → σ → Nat × σ) (population : List T) (number : Nat) (s : σ) :
    List T × σ :=
  match number with
  | 0 => ([], s)
  | n + 1 =>
    let (i, s1) := gi population s
    let (rest, s2) := SelectionFunction.select gi population n s1
    (population.getD i default :: rest, s2)


/-- A concrete Test-Factory: append at the end, insert a fresh default
statement at the end, delete by erasing the index, and decline call
substitution leaving the test case at its position. -/
def simpleFactory : TestFactory :=
  { appendStatement := fun tc s => tc ++ [s]
    insertRandomStatement := fun tc _ rand => (tc ++ [⟨7, 0⟩], (tc.length : Int), rand)
    deleteStatementGracefully := fun tc i rand => (tc.eraseIdx i, true, rand)
    changeRandomCall := fun tc p rand => (tc, false, p, rand) }

/-- A statement self-mutation that always declines. -/
def smNever : StmtMutate := fun s rand => (false, s, rand)

/-- A statement self-mutation that always succeeds, bumping the payload
and resetting the distance. -/
def smBump : StmtMutate := fun s rand => (true, ⟨s.payload + 1, 0⟩, rand)

/-- A concrete configuration: length budget 10, chop disabled, all gate
probabilities and the insertion decay factor 1/2. -/
def cfgW : Config :=
  { chromosome_length := 10
    chop_max_length := false
    test_delete_probability := 1/2
    test_change_probability := 1/2
    test_insert_probability := 1/2
    statement_insertion_probability := 1/2 }

/-- An empty chromosome with a factory. -/
def cEmpty : TestCaseChromosome := TestCaseChromosome.mkNew [] (some simpleFactory)

/-- A one-statement chromosome constructed without a Test-Factory. -/
def cNoFactory : TestCaseChromosome := TestCaseChromosome.mkNew [⟨3, 5⟩] none

/-- A concrete `get_index` strategy for the C9 witness: round-robin over
the population, with the call counter as strategy state. -/
def roundRobinIndex : List Nat → Nat → Nat × Nat :=
  fun population s => (s % population.length, s + 1)


theorem Stmt.clone_eq (s : Stmt) : s.clone = s := rfl

theorem testCaseClone_eq (tc : List Stmt) : testCaseClone tc = tc := by
  simp only [testCaseClone]
  exact List.map_id'' Stmt.clone_eq tc

theorem setDistance_length (tc : List Stmt) (i : Nat) (d : Int) :
    (setDistance tc i d).length = tc.length := by
  unfold setDistance
  cases h : tc[i]? <;> simp [List.length_set]

theorem setDistance_distance_self (tc : List Stmt) (i : Nat) (d : Int)
    (h : i < tc.length) :
    (setDistance tc i d)[i]?.map Stmt.distance = some d := by
  unfold setDistance
  rw [List.getElem?_eq_getElem h]
  simp [List.getElem?_set_self', List.getElem?_eq_getElem h]

/-- C5: for every `FitnessValues`, `validate()` returns a non-empty list
of violations exactly when the fitness is NaN, infinite or negative, or
the coverage is NaN, infinite or outside `[0, 1]`; with both fields valid
it returns the empty list (and, being a total function, never raises). -/
theorem fitness_values_validate_iff (fv : FitnessValues) :
    fv.validate ≠ [] ↔
      (fv.fitness.isNaN ∨ fv.fitness.isInf ∨ fv.fitness.ltZero ∨
       fv.coverage.isNaN ∨ fv.coverage.isInf ∨ ¬fv.coverage.in01) := by
  unfold FitnessValues.validate
  cases hf : (fv.fitness.isNaN || fv.fitness.isInf || fv.fitness.ltZero) <;>
    cases hc : (fv.coverage.isNaN || fv.coverage.isInf || !fv.coverage.in01) <;>
      simp_all <;> tauto

/-- C10: when the fitness is valid but the coverage is not, `validate()`
returns exactly one violation string, and that string interpolates the
fitness field's value, not the offending coverage value. -/
theorem validate_coverage_message_embeds_fitness (fv : FitnessValues)
    (hf : ¬(fv.fitness.isNaN ∨ fv.fitness.isInf ∨ fv.fitness.ltZero))
    (hc : fv.coverage.isNaN ∨ fv.coverage.isInf ∨ ¬fv.coverage.in01) :
    fv.validate = ["Invalid value for coverage: " ++ floatRepr fv.fitness] := by
  unfold FitnessValues.validate
  have hf' : (fv.fitness.isNaN || fv.fitness.isInf || fv.fitness.ltZero) = false := by
    simp_all
  have hc' : (fv.coverage.isNaN || fv.coverage.isInf || !fv.coverage.in01) = true := by
    rcases hc with h | h | h <;> simp_all
  rw [hf', hc']
  simp

/-- Witness for C10 at fitness `1/2`, coverage `2`. -/
theorem validate_coverage_message_embeds_fitness_witness :
    FitnessValues.validate ⟨.val (1/2), .val 2⟩ =
      ["Invalid value for coverage: " ++ floatRepr (.val (1/2))] :=
  validate_coverage_message_embeds_fitness ⟨.val (1/2), .val 2⟩
    (by norm_num [PFloat.isNaN, PFloat.isInf, PFloat.ltZero])
    (by norm_num [PFloat.isNaN, PFloat.isInf, PFloat.in01])

/-- C4: the last mutatable position of a chromosome: `none` when empty;
the thrown-exception position `k` of the most recent execution result
when `k < size`; and `size - 1` otherwise (no execution result, no
exception, or a stale position `k ≥ size`). -/
theorem last_mutatable_statement_policy (ler : Option ExecutionResult)
    (tc : List Stmt) :
    (tc.length = 0 → get_last_mutatable_statement ler tc = none) ∧
    (∀ r k, ler = some r → r.thrownExceptionPosition = some k →
      k < tc.length → get_last_mutatable_statement ler tc = some k) ∧
    (tc.length ≠ 0 →
      (ler = none ∨ (∃ r, ler = some r ∧ r.thrownExceptionPosition = none) ∨
        (∃ r k, ler = some r ∧ r.thrownExceptionPosition = some k ∧
          tc.length ≤ k)) →
      get_last_mutatable_statement ler tc = some (tc.length - 1)) := by
  refine ⟨fun h => by simp [get_last_mutatable_statement, h], ?_, ?_⟩
  · intro r k hler hpos hk
    have h0 : tc.length ≠ 0 := by omega
    simp [get_last_mutatable_statement, h0, hler, hpos, hk]
  · intro h0 hcase
    rcases hcase with h | ⟨r, hler, hpos⟩ | ⟨r, k, hler, hpos, hk⟩
    · simp [get_last_mutatable_statement, h0, h]
    · simp [get_last_mutatable_statement, h0, hler, hpos]
    · have : ¬ k < tc.length := by omega
      simp [get_last_mutatable_statement, h0, hler, hpos, this]

/-- Witness for C4: an exception thrown at position 1 of a 3-statement
test case gives last mutatable position 1. -/
theorem last_mutatable_statement_policy_witness :
    get_last_mutatable_statement (some ⟨some 1⟩) [⟨0, 0⟩, ⟨1, 0⟩, ⟨2, 0⟩]
      = some 1 :=
  (last_mutatable_statement_policy (some ⟨some 1⟩) [⟨0, 0⟩, ⟨1, 0⟩, ⟨2, 0⟩]).2.1
    ⟨some 1⟩ 1 rfl rfl (by decide)

/-- C7: `clone()` produces a chromosome that is value-equal to the
original (structural equality on the encoded test case), whose changed
flag and cached fitness equal the original's at clone time, whose
statement sequence is the statement-wise deep copy of the original's,
and which shares (only) the non-owning Test-Factory reference. -/
theorem clone_value_equal (c : TestCaseChromosome) :
    chromosome_eq c.clone c ∧
    c.clone.test_case = testCaseClone c.test_case ∧
    c.clone.test_case = c.test_case ∧
    c.clone.changed = c.changed ∧
    c.clone.fitness = c.fitness ∧
    c.clone.test_factory = c.test_factory ∧
    c.clone.last_execution_result = c.last_execution_result := by
  refine ⟨?_, rfl, ?_, rfl, rfl, rfl, rfl⟩ <;>
    simp [chromosome_eq, TestCaseChromosome.clone, testCaseClone_eq]

/-- C3 (amended): `cross_over` on a chromosome without a Test-Factory
always fails fast with an assertion failure, whatever the parents and
positions. -/
theorem cross_over_without_factory_asserts (cfg : Config)
    (c other : TestCaseChromosome) (p1 p2 : Nat)
    (h : c.test_factory = none) :
    c.cross_over cfg other p1 p2 = none := by
  simp [TestCaseChromosome.cross_over, h]

/-- Witness for the amended C3: crossover of the factory-less chromosome
fails with an assertion failure. -/
theorem cross_over_without_factory_asserts_witness :
    cNoFactory.cross_over cfgW cEmpty 0 0 = none :=
  cross_over_without_factory_asserts cfgW cNoFactory cEmpty 0 0 rfl

/-- Counterexample to C3 as stated: `cNoFactory` is a non-empty
chromosome without a Test-Factory, yet `mutate()` under the stream
`9/10, 9/10, 9/10` (every gate misses its probability 1/2) completes
without any assertion failure and leaves the test case unchanged — a
silent no-op, not a fail-fast. -/
theorem mutate_without_factory_can_noop :
    cNoFactory.test_factory = none ∧
    cNoFactory.size = 1 ∧
    (TestCaseChromosome.mutate cfgW smNever 5 cNoFactory [9/10, 9/10, 9/10]).map
        (fun p => (p.1.test_case, p.1.changed, p.2)) =
      some ([⟨3, 5⟩], true, []) := by
  refine ⟨rfl, rfl, ?_⟩
  norm_num [TestCaseChromosome.mutate, mutation_chop, gatedDelete,
    gatedChange, gatedInsert, mutation_delete, mutation_change,
    mutation_insert, get_last_mutatable_statement, nextFloat, cfgW,
    cNoFactory, TestCaseChromosome.mkNew, smNever, TestCaseChromosome.size]

/-- C2 (amended): an empty chromosome has no mutatable position, and the
chop, delete and change sub-operations of `mutate()` are no-ops on it;
the insert sub-operation, however, may still insert statements (its
maximum position defaults to 0). -/
theorem empty_chromosome_suboperations (tf : Option TestFactory)
    (sm : StmtMutate) (fuel : Nat) (cfg : Config)
    (ler : Option ExecutionResult) (rand : RandQ) :
    get_last_mutatable_statement ler [] = none ∧
    mutation_chop cfg ler [] = ([], false) ∧
    mutation_delete tf ler [] rand = some (false, [], rand) ∧
    mutation_change tf sm fuel ler [] rand = some (false, [], rand) := by
  refine ⟨rfl, ?_, rfl, rfl⟩
  unfold mutation_chop
  split <;> simp [get_last_mutatable_statement]

/-- Counterexample to C2 as stated: on the empty chromosome `cEmpty`,
with every gate firing (stream prefix 0,0,0,0) and a factory whose
insertion appends one statement, `mutate()` inserts a statement: the
insert sub-operation is not a no-op on an empty chromosome. -/
theorem mutate_empty_chromosome_inserts :
    cEmpty.size = 0 ∧
    (TestCaseChromosome.mutate cfgW smNever 5 cEmpty [0, 0, 0, 0, 9/10]).map
        (fun p => p.1.test_case.length) =
      some 1 := by
  refine ⟨rfl, ?_⟩
  norm_num [TestCaseChromosome.mutate, mutation_chop, gatedDelete,
    gatedChange, gatedInsert, mutation_delete, mutation_change,
    mutation_insert, mutationInsertLoop, get_last_mutatable_statement,
    nextFloat, cfgW, cEmpty, simpleFactory, TestCaseChromosome.mkNew,
    smNever, TestCaseChromosome.size]

/-- C1: for a chromosome with a test factory and crossover positions
within both parents, if the synthesized offspring reaches the configured
maximum chromosome length, `cross_over` leaves `self` completely
unchanged (statement sequence, changed flag and cached fitness); the
offspring replaces `self`'s test case — setting the changed flag — only
when its size is strictly below the maximum. -/
theorem cross_over_length_invariant (cfg : Config)
    (c other : TestCaseChromosome) (F : TestFactory) (p1 p2 : Nat)
    (hF : c.test_factory = some F) (h1 : p1 ≤ c.size) (h2 : p2 ≤ other.size) :
    (cfg.chromosome_length ≤
        (crossOverOffspring F c.test_case other.test_case p1 p2).length →
      c.cross_over cfg other p1 p2 = some c) ∧
    ((crossOverOffspring F c.test_case other.test_case p1 p2).length <
        cfg.chromosome_length →
      c.cross_over cfg other p1 p2 =
        some { c with
                 test_case := crossOverOffspring F c.test_case other.test_case p1 p2
                 changed := true }) := by
  constructor
  · intro hlen
    have : ¬ (crossOverOffspring F c.test_case other.test_case p1 p2).length <
        cfg.chromosome_length := by omega
    simp [TestCaseChromosome.cross_over, hF, this]
  · intro hlen
    simp [TestCaseChromosome.cross_over, hF, hlen]

/-- Witness for C1: a 1-statement parent crossed at positions 1, 0 with a
2-statement parent under length budget 2 yields a size-3 offspring, and
the receiving chromosome is returned unchanged. -/
theorem cross_over_length_invariant_witness :
    (TestCaseChromosome.mkNew [⟨3, 5⟩] (some simpleFactory)).cross_over
        { cfgW with chromosome_length := 2 }
        (TestCaseChromosome.mkNew [⟨1, 1⟩, ⟨2, 2⟩] none) 1 0 =
      some (TestCaseChromosome.mkNew [⟨3, 5⟩] (some simpleFactory)) :=
  (cross_over_length_invariant { cfgW with chromosome_length := 2 }
      (TestCaseChromosome.mkNew [⟨3, 5⟩] (some simpleFactory))
      (TestCaseChromosome.mkNew [⟨1, 1⟩, ⟨2, 2⟩] none) simpleFactory 1 0
      rfl (by decide) (by decide)).1 (by decide)

/-- C9: `select(population, number)` makes exactly `number` calls of
`get_index`, each on the full population (selection with replacement,
here visible in that every call of `gi` receives `population` itself),
and returns the chromosomes at the returned indices in selection order;
with the default `number = 1` it returns a single selected chromosome. -/
theorem select_calls_get_index (T σ : Type) [Inhabited T]
    (gi : List T → σ → Nat × σ) (population : List T) (n : Nat) (s : σ)
    (hgi : ∀ s', (gi population s').1 < population.length) :
    (SelectionFunction.select gi population n s).1 =
      (getIndexTrace gi population n s).1.map
        (fun i => population.getD i default) ∧
    (getIndexTrace gi population n s).1.length = n ∧
    (∀ i ∈ (getIndexTrace gi population n s).1, i < population.length) ∧
    (SelectionFunction.select gi population 1 s).1 =
      [population.getD (gi population s).1 default] := by
  refine ⟨?_, ?_, ?_, ?_⟩
  · induction n generalizing s with
    | zero => rfl
    | succ m ih =>
      simp only [SelectionFunction.select, getIndexTrace]
      cases hg : gi population s with
      | mk i s1 => simp [ih s1]
  · induction n generalizing s with
    | zero => rfl
    | succ m ih =>
      simp only [getIndexTrace]
      cases hg : gi population s with
      | mk i s1 => simp [ih s1]
  · induction n generalizing s with
    | zero => simp [getIndexTrace]
    | succ m ih =>
      simp only [getIndexTrace]
      cases hg : gi population s with
      | mk i s1 =>
        simp only [List.mem_cons]
        rintro j (rfl | hj)
        · have := hgi s
          rw [hg] at this
          exact this
        · exact ih s1 j hj
  · simp [SelectionFunction.select]

/-- Witness for C9: three selections from the population `[10, 20]` with
the round-robin strategy return `[10, 20, 10]`. -/
theorem select_calls_get_index_witness :
    (SelectionFunction.select roundRobinIndex [10, 20] 3 0).1 = [10, 20, 10] := by
  have h := select_calls_get_index Nat Nat roundRobinIndex [10, 20] 3 0
    (fun s' => Nat.mod_lt _ (by norm_num))
  rw [h.1]
  rfl

/-- C8: whenever a gated step of the change sub-operation completes at a
selected position, the statement's result-variable distance at the
statement's current position afterwards equals its value immediately
before the step — whether the statement self-mutated successfully or the
Test-Factory substituted a different call (the substituted call adopts
the statement's return value, so the restoration lands on it). -/
theorem change_step_preserves_distance (tf : Option TestFactory)
    (sm : StmtMutate) (tc : List Stmt) (position : Nat) (rand : RandQ)
    (cb : Bool) (tc1 : List Stmt) (newPos : Nat) (rand1 : RandQ)
    (hstep : mutationChangeStep tf sm tc position rand =
      some (cb, tc1, newPos, rand1))
    (hin : newPos < tc1.length) :
    tc1[newPos]?.map Stmt.distance = tc[position]?.map Stmt.distance := by
  unfold mutationChangeStep at hstep
  cases hget : tc[position]? with
  | none => rw [hget] at hstep; exact absurd hstep (by simp)
  | some st =>
    rw [hget] at hstep
    dsimp only at hstep
    rcases hsm : sm st rand with ⟨ok, s1, r1⟩
    rw [hsm] at hstep
    cases ok with
    | true =>
      simp only [Option.some.injEq, Prod.mk.injEq, if_true] at hstep
      obtain ⟨rfl, rfl, rfl, rfl⟩ := hstep
      rw [setDistance_length, List.length_set] at hin
      have hlen : position < (tc.set position s1).length := by
        simpa [List.length_set] using hin
      rw [setDistance_distance_self (tc.set position s1) position st.distance hlen]
      simp
    | false =>
      cases tf with
      | none => simp at hstep
      | some F =>
        dsimp only at hstep
        rcases hcrc : F.changeRandomCall (tc.set position s1) position r1 with
          ⟨tc2, cb2, np, r2⟩
        rw [hcrc] at hstep
        simp only [Option.some.injEq, Prod.mk.injEq, if_false,
          Bool.false_eq_true] at hstep
        obtain ⟨rfl, rfl, rfl, rfl⟩ := hstep
        rw [setDistance_length] at hin
        rw [setDistance_distance_self _ _ _ hin]
        simp

/-- Witness for C8: a self-mutation that changes the payload and resets
the distance at position 0 of a singleton test case; the step restores
the distance 5. -/
theorem change_step_preserves_distance_witness :
    (([⟨2, 5⟩] : List Stmt)[0]?.map Stmt.distance =
        ([⟨1, 5⟩] : List Stmt)[0]?.map Stmt.distance) ∧
    mutationChangeStep none smBump [⟨1, 5⟩] 0 [] =
      some (true, [⟨2, 5⟩], 0, []) := by
  have hstep : mutationChangeStep none smBump [⟨1, 5⟩] 0 [] =
      some (true, [⟨2, 5⟩], 0, []) := by
    simp [mutationChangeStep, smBump, setDistance]
  exact ⟨change_step_preserves_distance none smBump [⟨1, 5⟩] 0 [] true
    [⟨2, 5⟩] 0 [] hstep (by decide), hstep⟩

theorem mutation_chop_length (cfg : Config) (ler : Option ExecutionResult)
    (tc : List Stmt) : (mutation_chop cfg ler tc).1.length ≤ tc.length := by
  unfold mutation_chop
  split
  · cases get_last_mutatable_statement ler tc <;>
      simp [testCaseChop, List.length_take]
  · exact le_refl _

theorem mutationDeleteLoop_length (F : TestFactory)
    (hdel : ∀ tc i rand,
      (F.deleteStatementGracefully tc i rand).1.length ≤ tc.length)
    (p : ℚ) :
    ∀ (n : Nat) (tc : List Stmt) (rand : RandQ) (changed b : Bool)
      (tc' : List Stmt) (rand' : RandQ),
      mutationDeleteLoop (some F) p n tc rand changed = some (b, tc', rand') →
      tc'.length ≤ tc.length
  | 0, tc, rand, changed, b, tc', rand', h => by
    simp only [mutationDeleteLoop, Option.some.injEq, Prod.mk.injEq] at h
    obtain ⟨-, rfl, -⟩ := h
    exact le_refl _
  | n + 1, tc, rand, changed, b, tc', rand', h => by
    simp only [mutationDeleteLoop] at h
    split at h
    · exact mutationDeleteLoop_length F hdel p n tc rand changed b tc' rand' h
    · split at h
      · exact le_trans
          (mutationDeleteLoop_length F hdel p n _ _ _ b tc' rand' h)
          (hdel tc n _)
      · exact mutationDeleteLoop_length F hdel p n tc _ changed b tc' rand' h

theorem mutation_delete_length (F : TestFactory)
    (hdel : ∀ tc i rand,
      (F.deleteStatementGracefully tc i rand).1.length ≤ tc.length)
    (ler : Option ExecutionResult) (tc : List Stmt) (rand : RandQ)
    (b : Bool) (tc' : List Stmt) (rand' : RandQ)
    (h : mutation_delete (some F) ler tc rand = some (b, tc', rand')) :
    tc'.length ≤ tc.length := by
  unfold mutation_delete at h
  cases hml : get_last_mutatable_statement ler tc with
  | none =>
    rw [hml] at h
    simp only [Option.some.injEq, Prod.mk.injEq] at h
    obtain ⟨-, rfl, -⟩ := h
    exact le_refl _
  | some last =>
    rw [hml] at h
    exact mutationDeleteLoop_length F hdel _ _ tc rand false b tc' rand' h

theorem mutationChangeStep_length (F : TestFactory)
    (hchg : ∀ tc p rand, (F.changeRandomCall tc p rand).1.length ≤ tc.length)
    (sm : StmtMutate) (tc : List Stmt) (position : Nat) (rand : RandQ)
    (cb : Bool) (tc1 : List Stmt) (newPos : Nat) (rand1 : RandQ)
    (h : mutationChangeStep (some F) sm tc position rand =
      some (cb, tc1, newPos, rand1)) :
    tc1.length ≤ tc.length := by
  unfold mutationChangeStep at h
  cases hget : tc[position]? with
  | none => rw [hget] at h; exact absurd h (by simp)
  | some st =>
    rw [hget] at h
    dsimp only at h
    rcases hsm : sm st rand with ⟨ok, s1, r1⟩
    rw [hsm] at h
    cases ok with
    | true =>
      simp only [Option.some.injEq, Prod.mk.injEq, if_true] at h
      obtain ⟨-, rfl, -, -⟩ := h
      rw [setDistance_length, List.length_set]
    | false =>
      dsimp only at h
      simp only [Option.some.injEq, Prod.mk.injEq, if_false,
        Bool.false_eq_true] at h
      obtain ⟨-, rfl, -, -⟩ := h
      rw [setDistance_length]
      calc (F.changeRandomCall (tc.set position s1) position r1).1.length
          ≤ (tc.set position s1).length := hchg _ _ _
        _ = tc.length := List.length_set ..

theorem mutationChangeLoop_length (F : TestFactory)
    (hchg : ∀ tc p rand, (F.changeRandomCall tc p rand).1.length ≤ tc.length)
    (sm : StmtMutate) (last : Nat) (p : ℚ) :
    ∀ (fuel position : Nat) (tc : List Stmt) (rand : RandQ) (changed b : Bool)
      (tc' : List Stmt) (rand' : RandQ),
      mutationChangeLoop (some F) sm last p fuel position tc rand changed =
        some (b, tc', rand') →
      tc'.length ≤ tc.length
  | 0, position, tc, rand, changed, b, tc', rand', h => by
    simp only [mutationChangeLoop, Option.some.injEq, Prod.mk.injEq] at h
    obtain ⟨-, rfl, -⟩ := h
    exact le_refl _
  | fuel + 1, position, tc, rand, changed, b, tc', rand', h => by
    simp only [mutationChangeLoop] at h
    split at h
    · simp only [Option.some.injEq, Prod.mk.injEq] at h
      obtain ⟨-, rfl, -⟩ := h
      exact le_refl _
    · split at h
      · cases hstep : mutationChangeStep (some F) sm tc position
            (nextFloat rand).2 with
        | none => rw [hstep] at h; exact absurd h (by simp)
        | some q4 =>
          obtain ⟨cb1, tcm, np, r2⟩ := q4
          rw [hstep] at h
          dsimp only at h
          exact le_trans
            (mutationChangeLoop_length F hchg sm last p fuel (np + 1) tcm r2
              _ b tc' rand' h)
            (mutationChangeStep_length F hchg sm tc position _ cb1 tcm np r2
              hstep)
      · exact mutationChangeLoop_length F hchg sm last p fuel (position + 1)
          tc _ changed b tc' rand' h

theorem mutation_change_length (F : TestFactory)
    (hchg : ∀ tc p rand, (F.changeRandomCall tc p rand).1.length ≤ tc.length)
    (sm : StmtMutate) (fuel : Nat) (ler : Option ExecutionResult)
    (tc : List Stmt) (rand : RandQ) (b : Bool) (tc' : List Stmt)
    (rand' : RandQ)
    (h : mutation_change (some F) sm fuel ler tc rand = some (b, tc', rand')) :
    tc'.length ≤ tc.length := by
  unfold mutation_change at h
  cases hml : get_last_mutatable_statement ler tc with
  | none =>
    rw [hml] at h
    simp only [Option.some.injEq, Prod.mk.injEq] at h
    obtain ⟨-, rfl, -⟩ := h
    exact le_refl _
  | some last =>
    rw [hml] at h
    exact mutationChangeLoop_length F hchg sm last _ fuel 0 tc rand false
      b tc' rand' h

theorem mutationInsertLoop_length (F : TestFactory) (cfg : Config)
    (ler : Option ExecutionResult) (alpha : ℚ)
    (hins : ∀ tc mp rand,
      (F.insertRandomStatement tc mp rand).1.length ≤ tc.length + 1) :
    ∀ (fuel exponent : Nat) (tc : List Stmt) (rand : RandQ) (changed b : Bool)
      (tc' : List Stmt) (rand' : RandQ),
      mutationInsertLoop (some F) cfg ler alpha fuel exponent tc rand changed =
        some (b, tc', rand') →
      tc'.length ≤ max tc.length cfg.chromosome_length
  | 0, exponent, tc, rand, changed, b, tc', rand', h => by
    simp only [mutationInsertLoop, Option.some.injEq, Prod.mk.injEq] at h
    obtain ⟨-, rfl, -⟩ := h
    exact le_max_left _ _
  | fuel + 1, exponent, tc, rand, changed, b, tc', rand', h => by
    simp only [mutationInsertLoop] at h
    split at h
    · rename_i hcond
      have h1 : (F.insertRandomStatement tc
          (match get_last_mutatable_statement ler tc with
            | none => 0
            | some m => m + 1) (nextFloat rand).2).1.length ≤ tc.length + 1 :=
        hins _ _ _
      have h2 := mutationInsertLoop_length F cfg ler alpha hins fuel
        (exponent + 1) _ _ _ b tc' rand' h
      omega
    · simp only [Option.some.injEq, Prod.mk.injEq] at h
      obtain ⟨-, rfl, -⟩ := h
      exact le_max_left _ _

theorem mutation_insert_length (F : TestFactory) (cfg : Config)
    (ler : Option ExecutionResult)
    (hins : ∀ tc mp rand,
      (F.insertRandomStatement tc mp rand).1.length ≤ tc.length + 1)
    (fuel : Nat) (tc : List Stmt) (rand : RandQ) (b : Bool)
    (tc' : List Stmt) (rand' : RandQ)
    (h : mutation_insert (some F) cfg ler fuel tc rand = some (b, tc', rand')) :
    tc'.length ≤ max tc.length cfg.chromosome_length :=
  mutationInsertLoop_length F cfg ler _ hins fuel 1 tc rand false b tc' rand' h

theorem gatedDelete_length (F : TestFactory)
    (hdel : ∀ tc i rand,
      (F.deleteStatementGracefully tc i rand).1.length ≤ tc.length)
    (ler : Option ExecutionResult) (prob : ℚ) (tc : List Stmt) (rand : RandQ)
    (b : Bool) (tc' : List Stmt) (rand' : RandQ)
    (h : gatedDelete (some F) ler prob tc rand = some (b, tc', rand')) :
    tc'.length ≤ tc.length := by
  unfold gatedDelete at h
  dsimp only at h
  split at h
  · exact mutation_delete_length F hdel ler tc _ b tc' rand' h
  · simp only [Option.some.injEq, Prod.mk.injEq] at h
    obtain ⟨-, rfl, -⟩ := h
    exact le_refl _

theorem gatedChange_length (F : TestFactory)
    (hchg : ∀ tc p rand, (F.changeRandomCall tc p rand).1.length ≤ tc.length)
    (sm : StmtMutate) (fuel : Nat) (ler : Option ExecutionResult) (prob : ℚ)
    (tc : List Stmt) (rand : RandQ) (b : Bool) (tc' : List Stmt)
    (rand' : RandQ)
    (h : gatedChange (some F) sm fuel ler prob tc rand = some (b, tc', rand')) :
    tc'.length ≤ tc.length := by
  unfold gatedChange at h
  dsimp only at h
  split at h
  · exact mutation_change_length F hchg sm fuel ler tc _ b tc' rand' h
  · simp only [Option.some.injEq, Prod.mk.injEq] at h
    obtain ⟨-, rfl, -⟩ := h
    exact le_refl _

theorem gatedInsert_length (F : TestFactory) (cfg : Config)
    (ler : Option ExecutionResult)
    (hins : ∀ tc mp rand,
      (F.insertRandomStatement tc mp rand).1.length ≤ tc.length + 1)
    (fuel : Nat) (tc : List Stmt) (rand : RandQ) (b : Bool)
    (tc' : List Stmt) (rand' : RandQ)
    (h : gatedInsert (some F) cfg ler fuel tc rand = some (b, tc', rand')) :
    tc'.length ≤ max tc.length cfg.chromosome_length := by
  unfold gatedInsert at h
  dsimp only at h
  split at h
  · exact mutation_insert_length F cfg ler hins fuel tc _ b tc' rand' h
  · simp only [Option.some.injEq, Prod.mk.injEq] at h
    obtain ⟨-, rfl, -⟩ := h
    exact le_max_left _ _

/-- C6: under the Test-Factory well-formedness hypotheses — an insertion
adds at most one statement, graceful deletion and call substitution never
increase the size — `mutate()` never leaves the chromosome with size
strictly greater than `max(size before the call, configured maximum
chromosome length)`: the insertion loop re-checks the budget before every
insertion. -/
theorem mutate_length_budget (cfg : Config) (sm : StmtMutate)
    (F : TestFactory)
    (hins : ∀ tc mp rand,
      (F.insertRandomStatement tc mp rand).1.length ≤ tc.length + 1)
    (hdel : ∀ tc i rand,
      (F.deleteStatementGracefully tc i rand).1.length ≤ tc.length)
    (hchg : ∀ tc p rand, (F.changeRandomCall tc p rand).1.length ≤ tc.length)
    (fuel : Nat) (c : TestCaseChromosome) (rand : RandQ)
    (hF : c.test_factory = some F) (c1 : TestCaseChromosome) (rand1 : RandQ)
    (hm : TestCaseChromosome.mutate cfg sm fuel c rand = some (c1, rand1)) :
    c1.test_case.length ≤ max c.test_case.length cfg.chromosome_length := by
  have hchop := mutation_chop_length cfg c.last_execution_result c.test_case
  unfold TestCaseChromosome.mutate at hm
  rw [hF] at hm
  dsimp only at hm
  cases hd : gatedDelete (some F) c.last_execution_result
      cfg.test_delete_probability
      (mutation_chop cfg c.last_execution_result c.test_case).1 rand with
  | none => rw [hd] at hm; exact absurd hm (by simp)
  | some td =>
    obtain ⟨d1, tcB, r2⟩ := td
    rw [hd] at hm
    dsimp only at hm
    have hB := gatedDelete_length F hdel c.last_execution_result _ _ rand
      d1 tcB r2 hd
    cases hc2 : gatedChange (some F) sm fuel c.last_execution_result
        cfg.test_change_probability tcB r2 with
    | none => rw [hc2] at hm; exact absurd hm (by simp)
    | some tg =>
      obtain ⟨d2, tcC, r4⟩ := tg
      rw [hc2] at hm
      dsimp only at hm
      have hC := gatedChange_length F hchg sm fuel c.last_execution_result
        _ tcB r2 d2 tcC r4 hc2
      cases hi : gatedInsert (some F) cfg c.last_execution_result fuel
          tcC r4 with
      | none => rw [hi] at hm; exact absurd hm (by simp)
      | some ti =>
        obtain ⟨d3, tcD, r6⟩ := ti
        rw [hi] at hm
        dsimp only at hm
        have hD := gatedInsert_length F cfg c.last_execution_result hins
          fuel tcC r4 d3 tcD r6 hi
        simp only [Option.some.injEq, Prod.mk.injEq] at hm
        obtain ⟨hrec, -⟩ := hm
        rw [← hrec]
        dsimp only
        omega

/-- Witness for C6: a concrete `mutate()` run with `simpleFactory`
(insertions add exactly one statement, deletions erase one, call
substitution keeps the test case) stays within the length budget. -/
theorem mutate_length_budget_witness :
    TestCaseChromosome.mutate cfgW smNever 5 cEmpty [0, 0, 0, 0, 9/10] =
      some ({ cEmpty with test_case := [⟨7, 0⟩], changed := true }, []) ∧
    ({ cEmpty with test_case := [⟨7, 0⟩], changed := true }
        : TestCaseChromosome).test_case.length ≤
      max cEmpty.test_case.length cfgW.chromosome_length := by
  have hm : TestCaseChromosome.mutate cfgW smNever 5 cEmpty [0, 0, 0, 0, 9/10] =
      some ({ cEmpty with test_case := [⟨7, 0⟩], changed := true }, []) := by
    norm_num [TestCaseChromosome.mutate, mutation_chop, gatedDelete,
      gatedChange, gatedInsert, mutation_delete, mutation_change,
      mutation_insert, mutationInsertLoop, get_last_mutatable_statement,
      nextFloat, cfgW, cEmpty, simpleFactory, TestCaseChromosome.mkNew,
      smNever, TestCaseChromosome.size]
  refine ⟨hm, mutate_length_budget cfgW smNever simpleFactory
    (fun tc mp rand => by simp [simpleFactory])
    (fun tc i rand => by simpa [simpleFactory] using List.length_eraseIdx_le tc i)
    (fun tc p rand => le_refl _)
    5 cEmpty [0, 0, 0, 0, 9/10] rfl _ [] hm⟩
